import Mathlib

/-!
Shallow embedding of the core of the asciiWallpaper repository
(src/core/ascii_converter.py, src/core/color_handler.py,
src/core/image_processor.py, src/core/output_formatter.py), together with
theorems settling the behavioural claims about it.

Python numeric conventions used throughout the embedding:
* Python real arithmetic is modelled exactly over `ℚ`;
* `int(q)` truncates toward zero, modelled by `pyInt`;
* `numpy` unsigned 8-bit channels are modelled as `ℕ` values.
-/

namespace AsciiWallpaper

/-- Python `int()` applied to a real value: truncation toward zero. -/
def pyInt (q : ℚ) : ℤ := if q < 0 then ⌈q⌉ else ⌊q⌋

theorem pyInt_of_nonneg {q : ℚ} (h : 0 ≤ q) : pyInt q = ⌊q⌋ := by
  simp [pyInt, not_lt.mpr h]

theorem pyInt_intCast (n : ℤ) : pyInt (n : ℚ) = n := by
  rcases lt_or_le (n : ℚ) 0 with h | h
  · simp [pyInt, h]
  · simp [pyInt, not_lt.mpr h]

theorem pyInt_mono : Monotone pyInt := by
  intro x y hxy
  unfold pyInt
  rcases lt_or_le x 0 with hx | hx
  · rcases lt_or_le y 0 with hy | hy
    · simpa [hx, hy] using Int.ceil_le_ceil hxy
    · simp only [hx, if_true, not_lt.mpr hy, if_false]
      calc ⌈x⌉ ≤ 0 := Int.ceil_le.mpr (by exact_mod_cast hx.le)
        _ ≤ ⌊y⌋ := Int.floor_nonneg.mpr hy
  · have hy : 0 ≤ y := hx.trans hxy
    simpa [not_lt.mpr hx, not_lt.mpr hy] using Int.floor_le_floor hxy

/-! ## `AsciiConverter.pixel_to_ascii` — glyph index computation

From src/core/ascii_converter.py, lines 59-78:
`intensity = max(r, g, b)`;
`adjusted_intensity = min(255, intensity * brightness_boost)`;
`char_index = int((255 - adjusted_intensity) / 255 * (len(char_set) - 1))` when
`invert` else `int(adjusted_intensity / 255 * (len(char_set) - 1))`;
`char_index = max(0, min(char_index, len(char_set) - 1))`.
`N` stands for `len(self.char_set)`. -/
def pixel_to_ascii_index (r g b : ℕ) (invert : Bool) (brightness_boost : ℚ)
    (N : ℕ) : ℤ :=
  let intensity : ℚ := ((max r (max g b) : ℕ) : ℚ)
  let adjusted_intensity : ℚ := min 255 (intensity * brightness_boost)
  let char_index : ℤ :=
    if invert then pyInt ((255 - adjusted_intensity) / 255 * ((N : ℚ) - 1))
    else pyInt (adjusted_intensity / 255 * ((N : ℚ) - 1))
  max 0 (min char_index ((N : ℤ) - 1))

/-- Modelled from the spec: the index formula of §4.2 step 2 as literally
written there, with round-to-nearest:
`index = invert ? round((255-adjusted)/255*(N-1)) : round(adjusted/255*(N-1))`,
`adjusted = clamp(intensity * brightness_boost, 0, 255)`, clamped to
`[0, N-1]`.  Used only to compare the spec's formula with the code. -/
def spec_round_index (r g b : ℕ) (invert : Bool) (brightness_boost : ℚ)
    (N : ℕ) : ℤ :=
  let adjusted : ℚ :=
    max 0 (min 255 (((max r (max g b) : ℕ) : ℚ) * brightness_boost))
  let raw : ℤ :=
    if invert then round ((255 - adjusted) / 255 * ((N : ℚ) - 1))
    else round (adjusted / 255 * ((N : ℚ) - 1))
  max 0 (min raw ((N : ℤ) - 1))

/-- Modelled from the spec: the same formula amended to truncation (floor on
the non-negative values that occur): the rounding rule actually implemented. -/
def spec_floor_index (r g b : ℕ) (invert : Bool) (brightness_boost : ℚ)
    (N : ℕ) : ℤ :=
  let adjusted : ℚ :=
    max 0 (min 255 (((max r (max g b) : ℕ) : ℚ) * brightness_boost))
  let raw : ℤ :=
    if invert then ⌊(255 - adjusted) / 255 * ((N : ℚ) - 1)⌋
    else ⌊adjusted / 255 * ((N : ℚ) - 1)⌋
  max 0 (min raw ((N : ℤ) - 1))

/-- On the pixel (90,90,90) with the default boost 1.5, a 10-glyph ramp and
`invert = false`, the code computes index 4 (truncation of 4.7647…) while the
spec's round-to-nearest formula gives 5: the claim that the index is obtained
by rounding to nearest is false on the code. -/
theorem C1_counterexample :
    pixel_to_ascii_index 90 90 90 false (3/2) 10 = 4 ∧
      spec_round_index 90 90 90 false (3/2) 10 = 5 := by
  constructor <;> norm_num [pixel_to_ascii_index, spec_round_index, pyInt,
    round_eq]

/-- C1 (amended): for channels in [0,255], a ramp of size `N ≥ 2` and a
non-negative brightness boost, `pixel_to_ascii` computes
`adjusted = clamp(max(R,G,B) * brightness_boost, 0, 255)` and selects glyph
index `floor(adjusted/255*(N-1))` when `invert` is false and
`floor((255-adjusted)/255*(N-1))` when `invert` is true, clamped to
`[0, N-1]`: the rounding rule is truncation (floor), not round-to-nearest. -/
theorem C1_index_is_truncated (r g b N : ℕ) (invert : Bool)
    (brightness_boost : ℚ) (hr : r ≤ 255) (hg : g ≤ 255) (hb : b ≤ 255)
    (hN : 2 ≤ N) (hboost : 0 ≤ brightness_boost) :
    pixel_to_ascii_index r g b invert brightness_boost N =
      spec_floor_index r g b invert brightness_boost N := by
  have hi : (0 : ℚ) ≤ ((max r (max g b) : ℕ) : ℚ) := by positivity
  have hprod : (0 : ℚ) ≤ ((max r (max g b) : ℕ) : ℚ) * brightness_boost :=
    mul_nonneg hi hboost
  have hadj0 : (0 : ℚ) ≤
      min 255 (((max r (max g b) : ℕ) : ℚ) * brightness_boost) :=
    le_min (by norm_num) hprod
  have hadj255 :
      min 255 (((max r (max g b) : ℕ) : ℚ) * brightness_boost) ≤ 255 :=
    min_le_left _ _
  have hNQ : (0 : ℚ) ≤ (N : ℚ) - 1 := by
    have : (2 : ℚ) ≤ (N : ℚ) := by exact_mod_cast hN
    linarith
  have hmax :
      max 0 (min 255 (((max r (max g b) : ℕ) : ℚ) * brightness_boost)) =
        min 255 (((max r (max g b) : ℕ) : ℚ) * brightness_boost) :=
    max_eq_right hadj0
  unfold pixel_to_ascii_index spec_floor_index
  rw [hmax]
  cases invert with
  | false =>
      simp only [Bool.false_eq_true, if_false]
      rw [pyInt_of_nonneg (mul_nonneg (div_nonneg hadj0 (by norm_num)) hNQ)]
  | true =>
      simp only [if_true]
      rw [pyInt_of_nonneg
        (mul_nonneg (div_nonneg (by linarith) (by norm_num)) hNQ)]

theorem C1_index_is_truncated_witness :
    (90 ≤ 255 ∧ 2 ≤ 10 ∧ (0 : ℚ) ≤ 3/2) ∧
      pixel_to_ascii_index 90 90 90 false (3/2) 10 =
        spec_floor_index 90 90 90 false (3/2) 10 :=
  ⟨⟨by norm_num, by norm_num, by norm_num⟩,
    C1_index_is_truncated 90 90 90 10 false (3/2) (by norm_num) (by norm_num)
      (by norm_num) (by norm_num) (by norm_num)⟩

/-- With `invert = false` the code's glyph index rises with intensity
(index 0 at black, index 9 at white on a 10-glyph ramp with the default
boost): the claim that the index is monotonically non-increasing in
intensity when `invert = false` is false on the code. -/
theorem C2_counterexample :
    ¬ (pixel_to_ascii_index 255 255 255 false (3/2) 10 ≤
        pixel_to_ascii_index 0 0 0 false (3/2) 10) := by
  norm_num [pixel_to_ascii_index, pyInt]

/-- C2 (amended): for all pixels and a ramp of size `N ≥ 1` the glyph index
is in `[0, N-1]`; and with ramp, non-negative boost and flags fixed the index
is monotonically non-DEcreasing as intensity `max(R,G,B)` increases when
`invert = false`, and non-INcreasing when `invert = true` (the directions
stated by the claim are swapped). -/
theorem C2_index_bounds_monotone :
    (∀ (r g b N : ℕ) (invert : Bool) (boost : ℚ), 1 ≤ N →
        0 ≤ pixel_to_ascii_index r g b invert boost N ∧
          pixel_to_ascii_index r g b invert boost N ≤ (N : ℤ) - 1) ∧
    (∀ (r₁ g₁ b₁ r₂ g₂ b₂ N : ℕ) (boost : ℚ), 1 ≤ N → 0 ≤ boost →
        max r₁ (max g₁ b₁) ≤ max r₂ (max g₂ b₂) →
        pixel_to_ascii_index r₁ g₁ b₁ false boost N ≤
            pixel_to_ascii_index r₂ g₂ b₂ false boost N ∧
          pixel_to_ascii_index r₂ g₂ b₂ true boost N ≤
            pixel_to_ascii_index r₁ g₁ b₁ true boost N) := by
  constructor
  · intro r g b N invert boost hN
    unfold pixel_to_ascii_index
    refine ⟨le_max_left _ _, max_le ?_ (min_le_right _ _)⟩
    have : (1 : ℤ) ≤ (N : ℤ) := by exact_mod_cast hN
    omega
  · intro r₁ g₁ b₁ r₂ g₂ b₂ N boost hN hboost h
    have hNQ : (0 : ℚ) ≤ (N : ℚ) - 1 := by
      have : (1 : ℚ) ≤ (N : ℚ) := by exact_mod_cast hN
      linarith
    have hcast : ((max r₁ (max g₁ b₁) : ℕ) : ℚ) ≤
        ((max r₂ (max g₂ b₂) : ℕ) : ℚ) := by exact_mod_cast h
    have hadj : min 255 (((max r₁ (max g₁ b₁) : ℕ) : ℚ) * boost) ≤
        min 255 (((max r₂ (max g₂ b₂) : ℕ) : ℚ) * boost) :=
      min_le_min le_rfl (mul_le_mul_of_nonneg_right hcast hboost)
    constructor
    · unfold pixel_to_ascii_index
      refine max_le_max le_rfl (min_le_min ?_ le_rfl)
      exact pyInt_mono (by gcongr)
    · unfold pixel_to_ascii_index
      refine max_le_max le_rfl (min_le_min ?_ le_rfl)
      refine pyInt_mono ?_
      have h255 : (255 : ℚ) - min 255 (((max r₂ (max g₂ b₂) : ℕ) : ℚ) * boost)
          ≤ 255 - min 255 (((max r₁ (max g₁ b₁) : ℕ) : ℚ) * boost) := by
        linarith
      gcongr

theorem C2_index_bounds_monotone_witness :
    ((1 ≤ 10 ∧ (0 : ℚ) ≤ 3/2 ∧ max 0 (max 0 0) ≤ max 255 (max 255 255)) ∧
      pixel_to_ascii_index 0 0 0 false (3/2) 10 ≤
        pixel_to_ascii_index 255 255 255 false (3/2) 10) ∧
      0 ≤ pixel_to_ascii_index 7 7 7 true (3/2) 10 :=
  ⟨⟨⟨by norm_num, by norm_num, by norm_num⟩,
      (C2_index_bounds_monotone.2 0 0 0 255 255 255 10 (3/2) (by norm_num)
        (by norm_num) (by norm_num)).1⟩,
    (C2_index_bounds_monotone.1 7 7 7 10 true (3/2) (by norm_num)).1⟩

/-! ## `ColorHandler` (src/core/color_handler.py) -/

/-- Mutable state of a `ColorHandler` instance: `self.output_mode` and
`self.active_scheme`. -/
structure ColorHandlerState where
  output_mode : String
  active_scheme : String
deriving DecidableEq

/-- The keys of `self.color_schemes` (color_handler.py lines 10-15). -/
def color_scheme_names : List String := ["full_rgb", "pastel", "neon", "grayscale"]

/-- `ColorHandler.set_color_scheme` (lines 50-58): sets the scheme and
returns `True` when the name is a known key, otherwise leaves the state
unchanged and returns `False`. -/
def set_color_scheme (st : ColorHandlerState) (scheme_name : String) :
    ColorHandlerState × Bool :=
  if scheme_name ∈ color_scheme_names then
    ({ st with active_scheme := scheme_name }, true)
  else (st, false)

/-- Python `str.lower()` (the mode names involved are ASCII), as a
character-wise map over the string's characters. -/
def pyLower (s : String) : String := ⟨s.data.map Char.toLower⟩

/-- The `format_to_mode` table of `set_output_mode` (lines 23-33). -/
def format_to_mode : List (String × String) :=
  [("png", "image"), ("jpg", "image"), ("jpeg", "image"), ("bmp", "image"),
   ("gif", "image"), ("txt", "terminal"), ("text", "terminal"),
   ("html", "html"), ("htm", "html")]

/-- The format-to-mode conversion step of `set_output_mode` (lines 35-39):
`mode` is replaced by `format_to_mode[mode.lower()]` when present. -/
def mapped_mode (mode : String) : String :=
  match List.lookup (pyLower mode) format_to_mode with
  | some actual => actual
  | none => mode

/-- `valid_modes` of `set_output_mode` (line 41). -/
def valid_modes : List String := ["terminal", "html", "image"]

/-- `ColorHandler.set_output_mode` (lines 20-48). -/
def set_output_mode (st : ColorHandlerState) (mode : String) :
    ColorHandlerState × Bool :=
  let mode1 := mapped_mode mode
  if pyLower mode1 ∈ valid_modes then
    ({ st with output_mode := pyLower mode1 }, true)
  else (st, false)

/-! ### `ColorHandler._to_grayscale` (lines 79-82)

`gray = int(0.299 * r + 0.587 * g + 0.114 * b)`, replicated across the
three channels.  Python evaluates the right-hand side in IEEE-754 double
precision; the literals 0.299, 0.587 and 0.114 are not exactly
representable, and their nearest doubles sum to `1 - 3/2^56`, which is what
makes the transform fail to be idempotent.  The embedding models the double
computation EXACTLY:

* every double that occurs here is a dyadic rational; scaled by `2^120` it
  is a natural number, so a double with value `v` is represented by the
  natural number `v * 2^120`;
* `roundDoubleFP` rounds a scaled value to 53 significant bits with
  round-to-nearest, ties-to-even — IEEE-754 binary64 rounding (all values
  involved are far from the subnormal and overflow ranges);
* the constants `c299_fp`, `c587_fp`, `c114_fp` are the scaled nearest
  doubles of the three literals; the lemmas `c*_fp_nearest` below verify
  each is within half an ulp of the decimal value;
* each `*` and `+` performs the exact operation and then rounds
  (`flmul_fp`, `fladd_fp`), in Python's left-to-right evaluation order;
* the final `int()` truncates the (non-negative) result: division by the
  scale.

Channels are `numpy` uint8 values, modelled as `ℕ`. -/

/-- Number of binary digits of `n` (with enough `fuel`); `0` for `0`. -/
def bitlen : ℕ → ℕ → ℕ
  | 0, _ => 0
  | fuel+1, n => if n = 0 then 0 else bitlen fuel (n / 2) + 1

/-- Round a (scaled, non-negative) dyadic value to 53 significant bits,
round-to-nearest with ties-to-even: IEEE-754 binary64 rounding for the
normal range. -/
def roundDoubleFP (n : ℕ) : ℕ :=
  let L := bitlen 256 n
  if L ≤ 53 then n
  else
    let s := L - 53
    let m := n / 2 ^ s
    let r := n % 2 ^ s
    let m' := if 2 * r < 2 ^ s then m
      else if 2 ^ s < 2 * r then m + 1
      else if m % 2 = 0 then m else m + 1
    m' * 2 ^ s

/-- The global fixed-point scale `2^120`. -/
def fpScale : ℕ := 2 ^ 120

/-- The double nearest `0.299` = `5386305154335113 * 2^(-54)`, scaled. -/
def c299_fp : ℕ := 5386305154335113 * 2 ^ 66

/-- The double nearest `0.587` = `2643612981266481 * 2^(-52)`, scaled. -/
def c587_fp : ℕ := 2643612981266481 * 2 ^ 68

/-- The double nearest `0.114` = `8214565720323785 * 2^(-56)`, scaled. -/
def c114_fp : ℕ := 8214565720323785 * 2 ^ 64

/-- `c299_fp / 2^120` is within half an ulp (`2^(-55)` at this magnitude)
of `299/1000`, hence it is the nearest double. -/
theorem c299_fp_nearest : |(c299_fp : ℚ) / 2 ^ 120 - 299 / 1000| <
    1 / 2 ^ 55 := by
  rw [abs_sub_lt_iff]
  constructor <;> norm_num [c299_fp]

/-- `c587_fp / 2^120` is within half an ulp (`2^(-54)` at this magnitude)
of `587/1000`, hence it is the nearest double. -/
theorem c587_fp_nearest : |(c587_fp : ℚ) / 2 ^ 120 - 587 / 1000| <
    1 / 2 ^ 54 := by
  rw [abs_sub_lt_iff]
  constructor <;> norm_num [c587_fp]

/-- `c114_fp / 2^120` is within half an ulp (`2^(-57)` at this magnitude)
of `114/1000`, hence it is the nearest double. -/
theorem c114_fp_nearest : |(c114_fp : ℚ) / 2 ^ 120 - 114 / 1000| <
    1 / 2 ^ 57 := by
  rw [abs_sub_lt_iff]
  constructor <;> norm_num [c114_fp]

/-- Double multiplication of a scaled constant by a small integer (the
integer converts to double exactly): exact product, then rounding. -/
def flmul_fp (c n : ℕ) : ℕ := roundDoubleFP (c * n)

/-- Double addition of two scaled values: exact sum, then rounding. -/
def fladd_fp (a b : ℕ) : ℕ := roundDoubleFP (a + b)

/-- `ColorHandler._to_grayscale`:
`gray = int(0.299 * r + 0.587 * g + 0.114 * b)` in double precision,
replicated across the three channels. -/
def _to_grayscale (r g b : ℕ) : ℕ × ℕ × ℕ :=
  let gray := fladd_fp (fladd_fp (flmul_fp c299_fp r) (flmul_fp c587_fp g))
    (flmul_fp c114_fp b) / fpScale
  (gray, gray, gray)

set_option maxRecDepth 10000 in
/-- The grayscale transform is NOT idempotent on the code:
`_to_grayscale 0 2 0 = (1, 1, 1)` (from `0.587 * 2 = 1.174`), but applying
it again gives `_to_grayscale 1 1 1 = (0, 0, 0)` — the double luma weights
sum to `0.9999999999999999` and `int()` truncates. -/
theorem C8_counterexample :
    _to_grayscale 0 2 0 = (1, 1, 1) ∧
      _to_grayscale (_to_grayscale 0 2 0).1 (_to_grayscale 0 2 0).2.1
          (_to_grayscale 0 2 0).2.2 ≠
        _to_grayscale 0 2 0 := by
  constructor <;> decide

set_option maxHeartbeats 4000000 in
set_option maxRecDepth 100000 in
/-- Helper for C8: on every uniform gray triple `(n, n, n)` with
`n ∈ [0, 255]`, `_to_grayscale` returns `(n, n, n)` or
`(n - 1, n - 1, n - 1)` (checked for all 256 gray levels). -/
theorem gray_second_application_cases :
    ∀ n : ℕ, n ≤ 255 →
      _to_grayscale n n n = (n, n, n) ∨
        _to_grayscale n n n = (n - 1, n - 1, n - 1) := by
  decide

theorem bitlen_lower : ∀ (fuel n : ℕ), bitlen fuel n ≠ 0 →
    2 ^ (bitlen fuel n - 1) ≤ n := by
  intro fuel
  induction fuel with
  | zero => intro n h; exact absurd rfl h
  | succ fuel ih =>
    intro n h
    by_cases hn : n = 0
    · rw [hn] at h ⊢
      exact absurd (by simp [bitlen]) h
    · have hb : bitlen (fuel + 1) n = bitlen fuel (n / 2) + 1 := by
        simp [bitlen, hn]
      rw [hb]
      simp only [Nat.add_sub_cancel]
      by_cases hu : bitlen fuel (n / 2) = 0
      · rw [hu]
        omega
      · have := ih (n / 2) hu
        have h2 : 2 ^ (bitlen fuel (n / 2)) ≤ 2 * (n / 2) := by
          have : 2 ^ (bitlen fuel (n / 2)) =
              2 * 2 ^ (bitlen fuel (n / 2) - 1) := by
            rw [← pow_succ']
            congr 1
            omega
          omega
        omega

/-- Rounding to double adds at most one part in `2^52`. -/
theorem roundDoubleFP_le (n : ℕ) : roundDoubleFP n ≤ n + n / 2 ^ 52 := by
  simp only [roundDoubleFP]
  split_ifs with hL
  · omega
  all_goals
    push_neg at hL
    have hbit : 2 ^ (bitlen 256 n - 1) ≤ n := bitlen_lower 256 n (by omega)
    have hs : 2 ^ (bitlen 256 n - 53) * 2 ^ 52 ≤ n := by
      calc 2 ^ (bitlen 256 n - 53) * 2 ^ 52 = 2 ^ (bitlen 256 n - 1) := by
            rw [← pow_add]
            congr 1
            omega
        _ ≤ n := hbit
    have hsle : 2 ^ (bitlen 256 n - 53) ≤ n / 2 ^ 52 :=
      (Nat.le_div_iff_mul_le (by positivity)).mpr hs
    first
      | exact le_trans (Nat.div_mul_le_self n _) (Nat.le_add_right _ _)
      | (rw [add_mul, one_mul]
         exact Nat.add_le_add (Nat.div_mul_le_self n _) hsle)

/-- C8 (amended): the grayscale transform is NOT idempotent — the IEEE
double luma weights sum to `1 - 3/2^56`, so `int()` can truncate the
recomputed gray value one below the original (65 of the 256 gray levels
drop, e.g. `(0,2,0) ↦ (1,1,1) ↦ (0,0,0)`).  What does hold: for all
channels in `[0, 255]` the first application yields a uniform triple
`(n, n, n)` with `n ≤ 255`, and the second application returns either that
same triple or `(n-1, n-1, n-1)` — a repeated application changes each
channel by at most one downward truncation step. -/
theorem C8_grayscale_second_application (r g b : ℕ) (hr : r ≤ 255)
    (hg : g ≤ 255) (hb : b ≤ 255) :
    ∃ n : ℕ, n ≤ 255 ∧ _to_grayscale r g b = (n, n, n) ∧
      (_to_grayscale n n n = (n, n, n) ∨
        _to_grayscale n n n = (n - 1, n - 1, n - 1)) := by
  refine ⟨fladd_fp (fladd_fp (flmul_fp c299_fp r) (flmul_fp c587_fp g))
    (flmul_fp c114_fp b) / fpScale, ?_, rfl, ?_⟩
  · -- the first application's gray value is at most 255
    have hm : ∀ (c n m : ℕ), n ≤ 255 → c * n ≤ m →
        flmul_fp c n ≤ m + m / 2 ^ 52 := by
      intro c n m hn hcm
      calc flmul_fp c n ≤ c * n + c * n / 2 ^ 52 := roundDoubleFP_le _
        _ ≤ m + m / 2 ^ 52 :=
          Nat.add_le_add hcm (Nat.div_le_div_right hcm)
    have h1 : flmul_fp c299_fp r ≤
        c299_fp * 255 + c299_fp * 255 / 2 ^ 52 :=
      hm _ _ _ hr (Nat.mul_le_mul_left _ hr)
    have h2 : flmul_fp c587_fp g ≤
        c587_fp * 255 + c587_fp * 255 / 2 ^ 52 :=
      hm _ _ _ hg (Nat.mul_le_mul_left _ hg)
    have h3 : flmul_fp c114_fp b ≤
        c114_fp * 255 + c114_fp * 255 / 2 ^ 52 :=
      hm _ _ _ hb (Nat.mul_le_mul_left _ hb)
    have h12 : fladd_fp (flmul_fp c299_fp r) (flmul_fp c587_fp g) ≤
        2 ^ 120 * 226 := by
      calc fladd_fp (flmul_fp c299_fp r) (flmul_fp c587_fp g) ≤
            (flmul_fp c299_fp r + flmul_fp c587_fp g) +
              (flmul_fp c299_fp r + flmul_fp c587_fp g) / 2 ^ 52 :=
          roundDoubleFP_le _
        _ ≤ 2 ^ 120 * 226 := by
          have hsum : flmul_fp c299_fp r + flmul_fp c587_fp g ≤
              (c299_fp * 255 + c299_fp * 255 / 2 ^ 52) +
                (c587_fp * 255 + c587_fp * 255 / 2 ^ 52) := by omega
          have hlit : (c299_fp * 255 + c299_fp * 255 / 2 ^ 52) +
              (c587_fp * 255 + c587_fp * 255 / 2 ^ 52) +
              ((c299_fp * 255 + c299_fp * 255 / 2 ^ 52) +
                (c587_fp * 255 + c587_fp * 255 / 2 ^ 52)) / 2 ^ 52 ≤
              2 ^ 120 * 226 := by norm_num [c299_fp, c587_fp]
          have := @Nat.div_le_div_right _ _ (2 ^ 52) hsum
          omega
    have hS : fladd_fp (fladd_fp (flmul_fp c299_fp r) (flmul_fp c587_fp g))
        (flmul_fp c114_fp b) < 256 * 2 ^ 120 := by
      calc fladd_fp (fladd_fp (flmul_fp c299_fp r) (flmul_fp c587_fp g))
            (flmul_fp c114_fp b) ≤
            (fladd_fp (flmul_fp c299_fp r) (flmul_fp c587_fp g) +
              flmul_fp c114_fp b) +
              (fladd_fp (flmul_fp c299_fp r) (flmul_fp c587_fp g) +
                flmul_fp c114_fp b) / 2 ^ 52 := roundDoubleFP_le _
        _ < 256 * 2 ^ 120 := by
          have hsum : fladd_fp (flmul_fp c299_fp r) (flmul_fp c587_fp g) +
              flmul_fp c114_fp b ≤
              2 ^ 120 * 226 + (c114_fp * 255 + c114_fp * 255 / 2 ^ 52) := by
            omega
          have hlit : 2 ^ 120 * 226 +
              (c114_fp * 255 + c114_fp * 255 / 2 ^ 52) +
              (2 ^ 120 * 226 +
                (c114_fp * 255 + c114_fp * 255 / 2 ^ 52)) / 2 ^ 52 <
              256 * 2 ^ 120 := by norm_num [c114_fp]
          have := @Nat.div_le_div_right _ _ (2 ^ 52) hsum
          omega
    have : fladd_fp (fladd_fp (flmul_fp c299_fp r) (flmul_fp c587_fp g))
        (flmul_fp c114_fp b) / fpScale < 256 := by
      rw [Nat.div_lt_iff_lt_mul (by norm_num [fpScale])]
      calc fladd_fp (fladd_fp (flmul_fp c299_fp r) (flmul_fp c587_fp g))
            (flmul_fp c114_fp b) < 256 * 2 ^ 120 := hS
        _ ≤ 256 * fpScale := by norm_num [fpScale]
    omega
  · -- the second application moves the gray value by at most one
    apply gray_second_application_cases
    -- reuse the range bound just established
    have hm : ∀ (c n m : ℕ), n ≤ 255 → c * n ≤ m →
        flmul_fp c n ≤ m + m / 2 ^ 52 := by
      intro c n m hn hcm
      calc flmul_fp c n ≤ c * n + c * n / 2 ^ 52 := roundDoubleFP_le _
        _ ≤ m + m / 2 ^ 52 :=
          Nat.add_le_add hcm (Nat.div_le_div_right hcm)
    have h1 : flmul_fp c299_fp r ≤
        c299_fp * 255 + c299_fp * 255 / 2 ^ 52 :=
      hm _ _ _ hr (Nat.mul_le_mul_left _ hr)
    have h2 : flmul_fp c587_fp g ≤
        c587_fp * 255 + c587_fp * 255 / 2 ^ 52 :=
      hm _ _ _ hg (Nat.mul_le_mul_left _ hg)
    have h3 : flmul_fp c114_fp b ≤
        c114_fp * 255 + c114_fp * 255 / 2 ^ 52 :=
      hm _ _ _ hb (Nat.mul_le_mul_left _ hb)
    have h12 : fladd_fp (flmul_fp c299_fp r) (flmul_fp c587_fp g) ≤
        2 ^ 120 * 226 := by
      calc fladd_fp (flmul_fp c299_fp r) (flmul_fp c587_fp g) ≤
            (flmul_fp c299_fp r + flmul_fp c587_fp g) +
              (flmul_fp c299_fp r + flmul_fp c587_fp g) / 2 ^ 52 :=
          roundDoubleFP_le _
        _ ≤ 2 ^ 120 * 226 := by
          have hsum : flmul_fp c299_fp r + flmul_fp c587_fp g ≤
              (c299_fp * 255 + c299_fp * 255 / 2 ^ 52) +
                (c587_fp * 255 + c587_fp * 255 / 2 ^ 52) := by omega
          have hlit : (c299_fp * 255 + c299_fp * 255 / 2 ^ 52) +
              (c587_fp * 255 + c587_fp * 255 / 2 ^ 52) +
              ((c299_fp * 255 + c299_fp * 255 / 2 ^ 52) +
                (c587_fp * 255 + c587_fp * 255 / 2 ^ 52)) / 2 ^ 52 ≤
              2 ^ 120 * 226 := by norm_num [c299_fp, c587_fp]
          have := @Nat.div_le_div_right _ _ (2 ^ 52) hsum
          omega
    have hS : fladd_fp (fladd_fp (flmul_fp c299_fp r) (flmul_fp c587_fp g))
        (flmul_fp c114_fp b) < 256 * 2 ^ 120 := by
      calc fladd_fp (fladd_fp (flmul_fp c299_fp r) (flmul_fp c587_fp g))
            (flmul_fp c114_fp b) ≤
            (fladd_fp (flmul_fp c299_fp r) (flmul_fp c587_fp g) +
              flmul_fp c114_fp b) +
              (fladd_fp (flmul_fp c299_fp r) (flmul_fp c587_fp g) +
                flmul_fp c114_fp b) / 2 ^ 52 := roundDoubleFP_le _
        _ < 256 * 2 ^ 120 := by
          have hsum : fladd_fp (flmul_fp c299_fp r) (flmul_fp c587_fp g) +
              flmul_fp c114_fp b ≤
              2 ^ 120 * 226 + (c114_fp * 255 + c114_fp * 255 / 2 ^ 52) := by
            omega
          have hlit : 2 ^ 120 * 226 +
              (c114_fp * 255 + c114_fp * 255 / 2 ^ 52) +
              (2 ^ 120 * 226 +
                (c114_fp * 255 + c114_fp * 255 / 2 ^ 52)) / 2 ^ 52 <
              256 * 2 ^ 120 := by norm_num [c114_fp]
          have := @Nat.div_le_div_right _ _ (2 ^ 52) hsum
          omega
    have : fladd_fp (fladd_fp (flmul_fp c299_fp r) (flmul_fp c587_fp g))
        (flmul_fp c114_fp b) / fpScale < 256 := by
      rw [Nat.div_lt_iff_lt_mul (by norm_num [fpScale])]
      calc fladd_fp (fladd_fp (flmul_fp c299_fp r) (flmul_fp c587_fp g))
            (flmul_fp c114_fp b) < 256 * 2 ^ 120 := hS
        _ ≤ 256 * fpScale := by norm_num [fpScale]
    omega

theorem C8_grayscale_second_application_witness :
    ((0 : ℕ) ≤ 255 ∧ (2 : ℕ) ≤ 255) ∧
      ∃ n : ℕ, n ≤ 255 ∧ _to_grayscale 0 2 0 = (n, n, n) ∧
        (_to_grayscale n n n = (n, n, n) ∨
          _to_grayscale n n n = (n - 1, n - 1, n - 1)) :=
  ⟨⟨by norm_num, by norm_num⟩,
    C8_grayscale_second_application 0 2 0 (by norm_num) (by norm_num)
      (by norm_num)⟩

/-! ## `AsciiConverter` configuration (src/core/ascii_converter.py) -/

/-- An apostrophe character, used inside the "detailed" ramp below. -/
def apos : String := String.singleton (Char.ofNat 39)

/-- `self.char_sets` of `AsciiConverter.__init__` (lines 12-22). -/
def char_sets : List (String × String) :=
  [("standard", "@%#*+=-:. "),
   ("bright", " .:-=+*#%@"),
   ("detailed",
     "$@B%8&WM#*oahkbdpqwmZO0QLCJUYXzcvunxrjft/\\|()1\x7b\x7d[]?-_+~<>i!lI;:,\"^`"
       ++ apos ++ ". "),
   ("simple", "#@%*+=-:. "),
   ("blocks", "█▓▒░ "),
   ("minimal", "@:. "),
   ("manga", "█▓▒░@%#*/\\()[]\x7b\x7d=_-+~<>!;:,. "),
   ("diagonal", "\\|/─│┌┐└┘┼▄▀█▓▒░ "),
   ("contrast", "@%#*+=-:. ")]

/-- Mutable ramp-related state of an `AsciiConverter` instance. -/
structure AsciiConverterState where
  char_set : String
  char_set_name : String
deriving DecidableEq

/-- Python truthiness of an optional string (`if custom_chars:`). -/
def truthy : Option String → Bool
  | none => false
  | some s => !(s == "")

/-- `AsciiConverter.set_char_set` (lines 38-52): a custom set wins when
truthy; otherwise a known preset name is installed; otherwise the current
set is kept with only a warning.  The returned string is `self.char_set`. -/
def set_char_set (st : AsciiConverterState) (set_name : Option String)
    (custom_chars : Option String) : AsciiConverterState × String :=
  if truthy custom_chars then
    let c := custom_chars.getD ""
    ({ char_set := c, char_set_name := "custom" }, c)
  else
    match set_name with
    | some n =>
      match List.lookup n char_sets with
      | some cs => ({ char_set := cs, char_set_name := n }, cs)
      | none => (st, st.char_set)
    | none => (st, st.char_set)

/-- C7: configuration failures are state-preserving — an unknown preset name
leaves the character set unchanged, an unknown color scheme leaves the
active scheme unchanged, and an invalid output mode leaves the output mode
unchanged; each call returns normally (the embedding is total). -/
theorem C7_config_failures_preserve_state :
    (∀ (st : AsciiConverterState) (name : String),
        List.lookup name char_sets = none →
        set_char_set st (some name) none = (st, st.char_set)) ∧
    (∀ (st : ColorHandlerState) (scheme : String),
        scheme ∉ color_scheme_names →
        set_color_scheme st scheme = (st, false)) ∧
    (∀ (st : ColorHandlerState) (mode : String),
        pyLower (mapped_mode mode) ∉ valid_modes →
        set_output_mode st mode = (st, false)) := by
  refine ⟨?_, ?_, ?_⟩
  · intro st name h
    simp [set_char_set, truthy, h]
  · intro st scheme h
    simp [set_color_scheme, h]
  · intro st mode h
    simp [set_output_mode, h]

theorem C7_config_failures_preserve_state_witness :
    (List.lookup "neon_dreams" char_sets = none ∧
      set_char_set ⟨"@%#*+=-:. ", "standard"⟩ (some "neon_dreams") none =
        (⟨"@%#*+=-:. ", "standard"⟩, "@%#*+=-:. ")) ∧
    ("sepia" ∉ color_scheme_names ∧
      set_color_scheme ⟨"terminal", "full_rgb"⟩ "sepia" =
        (⟨"terminal", "full_rgb"⟩, false)) ∧
    (pyLower (mapped_mode "pdf") ∉ valid_modes ∧
      set_output_mode ⟨"terminal", "full_rgb"⟩ "pdf" =
        (⟨"terminal", "full_rgb"⟩, false)) :=
  ⟨⟨by decide,
      C7_config_failures_preserve_state.1 ⟨"@%#*+=-:. ", "standard"⟩
        "neon_dreams" (by decide)⟩,
    ⟨by decide,
      C7_config_failures_preserve_state.2.1 ⟨"terminal", "full_rgb"⟩ "sepia"
        (by decide)⟩,
    ⟨by decide,
      C7_config_failures_preserve_state.2.2 ⟨"terminal", "full_rgb"⟩ "pdf"
        (by decide)⟩⟩

/-! ## `ImageProcessor.calculate_ascii_dimensions`
(src/core/image_processor.py, lines 67-107)

`char_width = font_size * 0.6`, `char_height = font_size`;
`raw_cols = int(output_width / char_width)`,
`raw_rows = int(output_height / char_height)`;
`target = output_width / output_height`,
`grid = (raw_cols * char_width) / (raw_rows * char_height)`;
with correction: if `target > grid` keep `cols = raw_cols` and derive
`rows = int(cols / target * (char_width / char_height))`, else keep
`rows = raw_rows` and derive
`cols = int(rows * target * (char_height / char_width))`.

A Python float division by zero raises `ZeroDivisionError`; the embedding
returns `.error "ZeroDivisionError"` at exactly the expressions whose
denominator the code can zero.  Besides the grid-aspect division (line 85),
this includes the debug logging call at line 105, whose f-string evaluates
`cols/rows` before the function returns: every return path therefore raises
when the final `rows` is 0, which the embedding checks on each path before
producing the result.  The `(None, None)` early return for falsy dimensions
is `.ok none`. -/
def calculate_ascii_dimensions (output_width output_height font_size : ℚ)
    (char_aspect_correction : Bool) : Except String (Option (ℤ × ℤ)) :=
  if output_width = 0 ∨ output_height = 0 then .ok none
  else
    let char_width : ℚ := font_size * (6/10)
    let char_height : ℚ := font_size
    if char_width = 0 then .error "ZeroDivisionError"
    else if char_height = 0 then .error "ZeroDivisionError"
    else
      let raw_cols : ℤ := pyInt (output_width / char_width)
      let raw_rows : ℤ := pyInt (output_height / char_height)
      let target_aspect_ratio : ℚ := output_width / output_height
      if (raw_rows : ℚ) * char_height = 0 then .error "ZeroDivisionError"
      else
        let grid_aspect_ratio : ℚ :=
          ((raw_cols : ℚ) * char_width) / ((raw_rows : ℚ) * char_height)
        if char_aspect_correction then
          if grid_aspect_ratio < target_aspect_ratio then
            let cols := raw_cols
            let rows := pyInt ((cols : ℚ) / target_aspect_ratio *
              (char_width / char_height))
            if rows = 0 then .error "ZeroDivisionError"
            else .ok (some (cols, rows))
          else
            let rows := raw_rows
            let cols := pyInt ((rows : ℚ) * target_aspect_ratio *
              (char_height / char_width))
            if rows = 0 then .error "ZeroDivisionError"
            else .ok (some (cols, rows))
        else
          if raw_rows = 0 then .error "ZeroDivisionError"
          else .ok (some (raw_cols, raw_rows))

/-- At `output_width = 100`, `output_height = 6`, `font_size = 12` the raw
floored grid is `(13, 0)` — at least one axis is `≥ 1` — yet the call does
not return normally: `raw_rows = 0` makes the grid-aspect denominator zero
and the code raises `ZeroDivisionError`.  The claim is false as stated. -/
theorem C3_counterexample :
    calculate_ascii_dimensions 100 6 12 true = .error "ZeroDivisionError" ∧
      1 ≤ pyInt ((100 : ℚ) / (12 * (6/10))) := by
  constructor <;> norm_num [calculate_ascii_dimensions, pyInt]

/-- Even with both raw axes `≥ 1` the function can raise: at
`(output_width, output_height, font_size) = (1000, 12, 12)` the raw grid is
`(138, 1)`, the correction recomputes `rows = int(0.9936) = 0`, and the
debug f-string at image_processor.py line 105 divides `cols/rows`, raising
`ZeroDivisionError`. -/
theorem calculate_ascii_dimensions_line105_raises :
    calculate_ascii_dimensions 1000 12 12 true = .error "ZeroDivisionError" := by
  norm_num [calculate_ascii_dimensions, pyInt]

/-- C3 (amended): with aspect correction enabled and positive inputs, if the
raw floored grid is `≥ 1` on BOTH axes then either the call returns normally
with `cols ≥ 0` and `rows ≥ 1`, or the corrected row count truncates to 0
and the call raises `ZeroDivisionError` from the `cols/rows` division in the
debug logging line.  (With only one raw axis `≥ 1`, as the claim assumed,
the call already raises at the grid-aspect division.) -/
theorem C3_dims_normal_return (ow oh fs : ℚ) (how : 0 < ow) (hoh : 0 < oh)
    (hfs : 0 < fs) (hcols : fs * (6/10) ≤ ow) (hrows : fs ≤ oh) :
    (∃ cols rows : ℤ,
        calculate_ascii_dimensions ow oh fs true = .ok (some (cols, rows)) ∧
          0 ≤ cols ∧ 1 ≤ rows) ∨
      (calculate_ascii_dimensions ow oh fs true = .error "ZeroDivisionError" ∧
        pyInt ((pyInt (ow / (fs * (6/10))) : ℚ) / (ow / oh) *
          (fs * (6/10) / fs)) = 0) := by
  have hcw : (0 : ℚ) < fs * (6/10) := by positivity
  have hraw_cols : 1 ≤ pyInt (ow / (fs * (6/10))) := by
    rw [pyInt_of_nonneg (by positivity)]
    exact Int.le_floor.mpr (by push_cast; exact (one_le_div hcw).mpr hcols)
  have hraw_rows : 1 ≤ pyInt (oh / fs) := by
    rw [pyInt_of_nonneg (by positivity)]
    exact Int.le_floor.mpr (by push_cast; exact (one_le_div hfs).mpr hrows)
  have htgt : (0 : ℚ) < ow / oh := by positivity
  simp only [calculate_ascii_dimensions]
  rw [if_neg (by push_neg; exact ⟨ne_of_gt how, ne_of_gt hoh⟩)]
  rw [if_neg (ne_of_gt hcw)]
  rw [if_neg (ne_of_gt hfs)]
  have hden : ((pyInt (oh / fs) : ℚ)) * fs ≠ 0 := by
    have h1 : (1 : ℚ) ≤ (pyInt (oh / fs) : ℚ) := by exact_mod_cast hraw_rows
    positivity
  rw [if_neg hden, if_pos trivial]
  split_ifs with hbr hz hz2
  · exact Or.inr ⟨rfl, hz⟩
  · left
    have harg : (0 : ℚ) ≤ (pyInt (ow / (fs * (6/10))) : ℚ) / (ow / oh) *
        (fs * (6/10) / fs) := by
      have h1 : (1 : ℚ) ≤ (pyInt (ow / (fs * (6/10))) : ℚ) := by
        exact_mod_cast hraw_cols
      positivity
    have h0 : 0 ≤ pyInt ((pyInt (ow / (fs * (6/10))) : ℚ) / (ow / oh) *
        (fs * (6/10) / fs)) := by
      rw [pyInt_of_nonneg harg]
      exact Int.floor_nonneg.mpr harg
    exact ⟨_, _, rfl, by omega, by omega⟩
  · exact absurd hz2 (by omega)
  · left
    have harg : (0 : ℚ) ≤ (pyInt (oh / fs) : ℚ) * (ow / oh) *
        (fs / (fs * (6/10))) := by
      have h1 : (1 : ℚ) ≤ (pyInt (oh / fs) : ℚ) := by exact_mod_cast hraw_rows
      positivity
    have h0 : 0 ≤ pyInt ((pyInt (oh / fs) : ℚ) * (ow / oh) *
        (fs / (fs * (6/10)))) := by
      rw [pyInt_of_nonneg harg]
      exact Int.floor_nonneg.mpr harg
    exact ⟨_, _, rfl, h0, hraw_rows⟩

theorem C3_dims_normal_return_witness :
    ((0 : ℚ) < 100 ∧ (0 : ℚ) < 50 ∧ (0 : ℚ) < 12 ∧
        (12 : ℚ) * (6/10) ≤ 100 ∧ (12 : ℚ) ≤ 50) ∧
      ((∃ cols rows : ℤ,
          calculate_ascii_dimensions 100 50 12 true =
            .ok (some (cols, rows)) ∧ 0 ≤ cols ∧ 1 ≤ rows) ∨
        (calculate_ascii_dimensions 100 50 12 true =
            .error "ZeroDivisionError" ∧
          pyInt ((pyInt ((100 : ℚ) / (12 * (6/10))) : ℚ) / (100 / 50) *
            (12 * (6/10) / 12)) = 0)) :=
  ⟨⟨by norm_num, by norm_num, by norm_num, by norm_num, by norm_num⟩,
    C3_dims_normal_return 100 50 12 (by norm_num) (by norm_num) (by norm_num)
      (by norm_num) (by norm_num)⟩

/-- At `output_width = 6`, `output_height = 19`, `font_size = 10` the
corrected result is `(cols, rows) = (0, 1)`: the rendered aspect ratio is
`0` while the target ratio is `6/19`, a 100% relative error — not within
any small tolerance.  The claim is false as stated. -/
theorem C4_counterexample :
    calculate_ascii_dimensions 6 19 10 true = .ok (some (0, 1)) ∧
      ¬ (|(((0 : ℤ) : ℚ) * (10 * (6/10))) / (((1 : ℤ) : ℚ) * 10) - 6/19| <
          6/19) := by
  constructor
  · norm_num [calculate_ascii_dimensions, pyInt]
  · rw [show (((0 : ℤ) : ℚ) * (10 * (6/10))) / (((1 : ℤ) : ℚ) * 10) - 6/19 =
      -(6/19) by norm_num]
    rw [abs_neg, abs_of_nonneg (by norm_num : (0 : ℚ) ≤ 6/19)]
    norm_num

/-- C4 (amended): whenever the corrected computation returns a pair at all
(it can instead raise `ZeroDivisionError`, e.g. from the `cols/rows` debug
logging division), the returned grid fills the target aspect up to integer
truncation in the LINEAR sense: the rendered width `cols * cell_width`
differs from the width prescribed by the target aspect ratio at the chosen
row count, `(ow/oh) * rows * cell_height`, by less than one character cell
(`max cell_width ((ow/oh) * cell_height)`).  The ratio form of the claim
fails when the truncated axis collapses to 0. -/
theorem C4_aspect_within_one_cell (ow oh fs : ℚ) (cols rows : ℤ)
    (how : 0 < ow) (hoh : 0 < oh) (hfs : 0 < fs)
    (hres : calculate_ascii_dimensions ow oh fs true =
      .ok (some (cols, rows))) :
    |(cols : ℚ) * (fs * (6/10)) - (ow / oh) * ((rows : ℚ) * fs)| <
      max (fs * (6/10)) ((ow / oh) * fs) := by
  have hcw : (0 : ℚ) < fs * (6/10) := by positivity
  have htgt : (0 : ℚ) < ow / oh := by positivity
  simp only [calculate_ascii_dimensions] at hres
  rw [if_neg (by push_neg; exact ⟨ne_of_gt how, ne_of_gt hoh⟩)] at hres
  rw [if_neg (ne_of_gt hcw)] at hres
  rw [if_neg (ne_of_gt hfs)] at hres
  by_cases hden : ((pyInt (oh / fs) : ℚ)) * fs = 0
  · rw [if_pos hden] at hres
    exact absurd hres (by simp)
  rw [if_neg hden, if_pos trivial] at hres
  have hrr0 : 0 ≤ pyInt (oh / fs) := by
    rw [pyInt_of_nonneg (by positivity)]
    exact Int.floor_nonneg.mpr (by positivity)
  have hrrne : pyInt (oh / fs) ≠ 0 := by
    intro h
    exact hden (by rw [h]; push_cast; ring)
  have hraw_rows : 1 ≤ pyInt (oh / fs) := by omega
  by_cases hbr : ((pyInt (ow / (fs * (6/10))) : ℚ) * (fs * (6/10))) /
      ((pyInt (oh / fs) : ℚ) * fs) < ow / oh
  · rw [if_pos hbr] at hres
    by_cases hz : pyInt ((pyInt (ow / (fs * (6/10))) : ℚ) / (ow / oh) *
        (fs * (6/10) / fs)) = 0
    · rw [if_pos hz] at hres
      exact absurd hres (by simp)
    · -- target wider than raw grid: cols kept, rows truncated
      rw [if_neg hz] at hres
      simp only [Except.ok.injEq, Option.some.injEq, Prod.mk.injEq] at hres
      obtain ⟨hc', hr'⟩ := hres
      subst hc'
      subst hr'
      set cols : ℤ := pyInt (ow / (fs * (6/10))) with hc
      have hcols0 : (0 : ℚ) ≤ (cols : ℚ) := by
        have : (0 : ℤ) ≤ cols := by
          rw [hc, pyInt_of_nonneg (by positivity)]
          exact Int.floor_nonneg.mpr (by positivity)
        exact_mod_cast this
      set X : ℚ := (cols : ℚ) / (ow / oh) * (fs * (6/10) / fs) with hX
      have hX0 : 0 ≤ X := by rw [hX]; positivity
      rw [pyInt_of_nonneg hX0]
      have hfl : (⌊X⌋ : ℚ) ≤ X := Int.floor_le X
      have hfl2 : X - 1 < (⌊X⌋ : ℚ) := Int.sub_one_lt_floor X
      have hkey : (ow / oh) * (X * fs) = (cols : ℚ) * (fs * (6/10)) := by
        rw [hX]; field_simp; ring
      have hub : (ow / oh) * ((⌊X⌋ : ℚ) * fs) ≤
          (cols : ℚ) * (fs * (6/10)) := by
        rw [← hkey]
        have := mul_le_mul_of_nonneg_right hfl hfs.le
        nlinarith
      have hlb : (cols : ℚ) * (fs * (6/10)) - (ow / oh) * fs <
          (ow / oh) * ((⌊X⌋ : ℚ) * fs) := by
        rw [← hkey]
        have := mul_lt_mul_of_pos_right hfl2 hfs
        nlinarith
      rw [abs_of_nonneg (by linarith)]
      calc (cols : ℚ) * (fs * (6/10)) - (ow / oh) * ((⌊X⌋ : ℚ) * fs) <
            (ow / oh) * fs := by linarith
        _ ≤ max (fs * (6/10)) ((ow / oh) * fs) := le_max_right _ _
  · rw [if_neg hbr] at hres
    by_cases hz : pyInt (oh / fs) = 0
    · exact absurd hz hrrne
    · -- raw grid at least as wide as target: rows kept, cols truncated
      rw [if_neg hz] at hres
      simp only [Except.ok.injEq, Option.some.injEq, Prod.mk.injEq] at hres
      obtain ⟨hc', hr'⟩ := hres
      subst hc'
      subst hr'
      set rows : ℤ := pyInt (oh / fs) with hrws
      have hrows0 : (1 : ℚ) ≤ (rows : ℚ) := by exact_mod_cast hraw_rows
      set Y : ℚ := (rows : ℚ) * (ow / oh) * (fs / (fs * (6/10))) with hY
      have hY0 : 0 ≤ Y := by
        rw [hY]
        have h : (0 : ℚ) ≤ (rows : ℚ) := by linarith
        positivity
      rw [pyInt_of_nonneg hY0]
      have hfl : (⌊Y⌋ : ℚ) ≤ Y := Int.floor_le Y
      have hfl2 : Y - 1 < (⌊Y⌋ : ℚ) := Int.sub_one_lt_floor Y
      have hkey : Y * (fs * (6/10)) = (ow / oh) * ((rows : ℚ) * fs) := by
        rw [hY]; field_simp; ring
      have hub : (⌊Y⌋ : ℚ) * (fs * (6/10)) ≤
          (ow / oh) * ((rows : ℚ) * fs) := by
        rw [← hkey]
        exact mul_le_mul_of_nonneg_right hfl hcw.le
      have hlb : (ow / oh) * ((rows : ℚ) * fs) - fs * (6/10) <
          (⌊Y⌋ : ℚ) * (fs * (6/10)) := by
        rw [← hkey]
        have := mul_lt_mul_of_pos_right hfl2 hcw
        nlinarith
      rw [abs_sub_comm, abs_of_nonneg (by linarith)]
      calc (ow / oh) * ((rows : ℚ) * fs) - (⌊Y⌋ : ℚ) * (fs * (6/10)) <
            fs * (6/10) := by linarith
        _ ≤ max (fs * (6/10)) ((ow / oh) * fs) := le_max_left _ _

theorem C4_aspect_within_one_cell_witness :
    ((0 : ℚ) < 6 ∧ (0 : ℚ) < 19 ∧ (0 : ℚ) < 10 ∧
        calculate_ascii_dimensions 6 19 10 true = .ok (some (0, 1))) ∧
      |((0 : ℤ) : ℚ) * (10 * (6/10)) - (6 / 19) * (((1 : ℤ) : ℚ) * 10)| <
        max ((10 : ℚ) * (6/10)) ((6 / 19) * 10) :=
  ⟨⟨by norm_num, by norm_num, by norm_num,
      by norm_num [calculate_ascii_dimensions, pyInt]⟩,
    C4_aspect_within_one_cell 6 19 10 0 1 (by norm_num) (by norm_num)
      (by norm_num) (by norm_num [calculate_ascii_dimensions, pyInt])⟩

/-! ## `OutputFormatter` (src/core/output_formatter.py) -/

/-- `OutputFormatter.to_string` (lines 13-15): `"\n".join(ascii_rows)`.
Lean's `String.intercalate` computes exactly Python's `str.join`.  Passing
`None` raises `TypeError` in Python (`join` requires an iterable), modelled
as `.error "TypeError"`. -/
def to_string (ascii_rows : Option (List String)) : Except String String :=
  match ascii_rows with
  | none => .error "TypeError"
  | some rows => .ok (String.intercalate "\n" rows)

/-- On absent input (`None`) `to_string` raises `TypeError` rather than
returning the empty string: the claimed no-failure behaviour on `None` is
false on the code. -/
theorem C9_counterexample :
    to_string none = Except.error "TypeError" ∧
      to_string none ≠ Except.ok "" := by
  exact ⟨rfl, by simp [to_string]⟩

/-- C9 (amended): for every grid of row strings `to_string` returns the rows
joined with a newline separator between rows; the EMPTY grid yields the
empty string; absent (`None`) input raises `TypeError` instead of returning
the empty string. -/
theorem C9_to_string_joins_rows :
    (∀ rows : List String,
        to_string (some rows) = Except.ok (String.intercalate "\n" rows)) ∧
      to_string (some []) = Except.ok "" ∧
      (∀ a b : String, to_string (some [a, b]) = Except.ok (a ++ "\n" ++ b)) ∧
      to_string none = Except.error "TypeError" := by
  refine ⟨fun rows => rfl, rfl, fun a b => rfl, rfl⟩

/-- The default CSS of `to_html` (output_formatter.py lines 22-32). -/
def default_css : String :=
  "\n            body \x7b background-color: #000; margin: 0; padding: 10px; \x7d\n            pre \x7b \n                font-family: "
    ++ apos ++ "Courier New" ++ apos ++
    ", monospace; \n                font-size: 10px;\n                line-height: 1.0;\n                letter-spacing: 0;\n                display: inline-block;\n            \x7d\n            "

/-- `OutputFormatter.to_html` (lines 17-45): the f-string template, with
`''.join(ascii_rows)` interpolated inside the single `pre` element.
Lean's `String.join` computes exactly Python's `''.join`. -/
def to_html (ascii_rows : List String) (title : String) (css : String) :
    String :=
  let css := if css = "" then default_css else css
  "<!DOCTYPE html>\n        <html>\n        <head>\n            <title>"
    ++ title ++ "</title>\n            <style>" ++ css
    ++ "</style>\n        </head>\n        <body>\n            <pre>"
    ++ String.join ascii_rows
    ++ "</pre>\n        </body>\n        </html>"

theorem join_length (l : List String) :
    (String.join l).length = (l.map String.length).sum := by
  have go : ∀ (l : List String) (acc : String),
      (l.foldl (fun r s => r ++ s) acc).length =
        acc.length + (l.map String.length).sum := by
    intro l
    induction l with
    | nil => intro acc; simp
    | cons a as ih => intro acc; simp [ih, Nat.add_assoc]
  simpa using go l ""

/-- C10: `to_html` concatenates the rows with no separator inside the single
`pre` element — the document splits as
`a ++ ("<pre>" ++ join rows ++ "</pre>") ++ b` where `join` adds no
characters (its length is the plain sum of row lengths) — and consequently
row boundaries are lost: a grid of two or more rows produces the same markup
as the single-row grid holding their concatenation. -/
theorem C10_html_loses_row_boundaries (title css : String)
    (rows : List String) (h : 2 ≤ rows.length) :
    (∃ a b : String,
        to_html rows title css =
          a ++ ("<pre>" ++ String.join rows ++ "</pre>") ++ b ∧
          (String.join rows).length = (rows.map String.length).sum) ∧
      to_html rows title css = to_html [String.join rows] title css := by
  constructor
  · refine ⟨"<!DOCTYPE html>\n        <html>\n        <head>\n            <title>"
      ++ title ++ "</title>\n            <style>"
      ++ (if css = "" then default_css else css)
      ++ "</style>\n        </head>\n        <body>\n            ",
      "\n        </body>\n        </html>", ?_, join_length rows⟩
    simp only [to_html]
    rw [show ("</style>\n        </head>\n        <body>\n            <pre>" :
        String) =
      "</style>\n        </head>\n        <body>\n            " ++ "<pre>"
      from rfl]
    rw [show ("</pre>\n        </body>\n        </html>" : String) =
      "</pre>" ++ "\n        </body>\n        </html>" from rfl]
    simp only [String.append_assoc]
  · have hone : String.join [String.join rows] = String.join rows := by
      simp [String.join]
    simp only [to_html, hone]

theorem C10_html_loses_row_boundaries_witness :
    2 ≤ (["ab", "cd"] : List String).length ∧
      ((∃ a b : String,
          to_html ["ab", "cd"] "T" "" =
            a ++ ("<pre>" ++ String.join ["ab", "cd"] ++ "</pre>") ++ b ∧
            (String.join ["ab", "cd"]).length =
              ((["ab", "cd"] : List String).map String.length).sum) ∧
        to_html ["ab", "cd"] "T" "" =
          to_html [String.join ["ab", "cd"]] "T" "") :=
  ⟨by norm_num, C10_html_loses_row_boundaries "T" "" ["ab", "cd"]
    (by norm_num)⟩

/-! ## `AsciiConverter.detect_direction`
(src/core/ascii_converter.py, lines 171-227)

The embedding fixes `window_size = 3`, the default and the only value the
repository ever passes (for any other value the elementwise product of the
clipped window with the fixed 3×3 Sobel kernels would not broadcast in
`numpy` at interior pixels). -/

/-- An RGB pixel; each channel is a `numpy` uint8 modelled as `ℕ`. -/
abbrev Pixel := ℕ × ℕ × ℕ

/-- A `numpy` image array: a rectangular `h × w` grid of RGB pixels,
modelled as dimensions plus an indexing function (`numpy` arrays are
rectangular by construction). -/
structure ImageArray where
  h : ℕ
  w : ℕ
  px : ℕ → ℕ → Pixel

/-- `np.mean(window, axis=2).astype(np.uint8)` on one RGB pixel: the exact
channel mean truncated to an integer, which for a sum of three naturals is
truncating natural division by 3 (the IEEE double `s / 3.0` is never closer
than `1/3 - ulp` to the next integer, so `astype`'s truncation agrees with
`⌊s / 3⌋`). -/
def grayVal (p : Pixel) : ℕ := (p.1 + p.2.1 + p.2.2) / 3

/-- Number of columns of the window clipped to the array:
`x_min = max(0, x - 1)` (natural subtraction), `x_max = min(w - 1, x + 1)`
(in `ℤ`, as in Python where `w - 1` may be `-1`), count
`x_max + 1 - x_min` clamped at 0. -/
def colsCount (w x : ℕ) : ℕ :=
  (min ((w : ℤ) - 1) ((x : ℤ) + 1) + 1 - ((x - 1 : ℕ) : ℤ)).toNat

/-- Number of rows of the clipped window, symmetric to `colsCount`. -/
def rowsCount (h y : ℕ) : ℕ :=
  (min ((h : ℤ) - 1) ((y : ℤ) + 1) + 1 - ((y - 1 : ℕ) : ℤ)).toNat

/-- Horizontal Sobel kernel `h_kernel` (line 186). -/
def h_kernel : List (List ℤ) := [[-1, 0, 1], [-2, 0, 2], [-1, 0, 1]]

/-- Vertical Sobel kernel `v_kernel` (line 187). -/
def v_kernel : List (List ℤ) := [[-1, -2, -1], [0, 0, 0], [1, 2, 1]]

/-- Entry `K[i][j]` of a kernel. -/
def kcell (K : List (List ℤ)) (i j : ℕ) : ℤ := (K.getD i []).getD j 0

/-- `np.sum(window_gray * kernel)` for the 3×3 window reached after the
shape check: the elementwise product summed over all nine positions.
`g i j` is the gray value at window position `(i, j)`. -/
def conv3 (g : ℕ → ℕ → ℤ) (K : List (List ℤ)) : ℤ :=
  g 0 0 * kcell K 0 0 + g 0 1 * kcell K 0 1 + g 0 2 * kcell K 0 2 +
  g 1 0 * kcell K 1 0 + g 1 1 * kcell K 1 1 + g 1 2 * kcell K 1 2 +
  g 2 0 * kcell K 2 0 + g 2 1 * kcell K 2 1 + g 2 2 * kcell K 2 2

/-- `np.arctan2(y, x)`: the two-argument arctangent. -/
noncomputable def atan2 (y x : ℝ) : ℝ :=
  if 0 < x then Real.arctan (y / x)
  else if x < 0 then
    (if 0 ≤ y then Real.arctan (y / x) + Real.pi
     else Real.arctan (y / x) - Real.pi)
  else if 0 < y then Real.pi / 2
  else if y < 0 then -(Real.pi / 2)
  else 0

/-- The angle-to-bucket table of `detect_direction` (lines 211-227), the
`if/elif` chain on the angle in degrees. -/
noncomputable def classify_angle (angle : ℝ) : String :=
  if 22.5 ≤ angle ∧ angle < 67.5 then "ne"
  else if 67.5 ≤ angle ∧ angle < 112.5 then "n"
  else if 112.5 ≤ angle ∧ angle < 157.5 then "nw"
  else if (157.5 ≤ angle ∧ angle ≤ 180) ∨ (-180 ≤ angle ∧ angle < -157.5)
    then "w"
  else if -157.5 ≤ angle ∧ angle < -112.5 then "sw"
  else if -112.5 ≤ angle ∧ angle < -67.5 then "s"
  else if -67.5 ≤ angle ∧ angle < -22.5 then "se"
  else "e"

/-- Body of `detect_direction` once an array is present: clip the window,
return `'none'` if it is smaller than 3×3, convolve with the two Sobel
kernels, take absolute values, return `'none'` if both gradients are below
20, else classify `atan2(gy, gx)` in degrees. -/
noncomputable def detect_direction_core (img : ImageArray) (x y : ℕ) :
    String :=
  let x_min := x - 1
  let y_min := y - 1
  if rowsCount img.h y < 3 ∨ colsCount img.w x < 3 then "none"
  else
    let g : ℕ → ℕ → ℤ :=
      fun i j => (grayVal (img.px (y_min + i) (x_min + j)) : ℤ)
    let gx := (conv3 g h_kernel).natAbs
    let gy := (conv3 g v_kernel).natAbs
    if gx < 20 ∧ gy < 20 then "none"
    else classify_angle (atan2 (gy : ℝ) (gx : ℝ) * 180 / Real.pi)

/-- `AsciiConverter.detect_direction`: returns Python `None` (here `none`)
when no array is given, else one of the bucket strings. -/
noncomputable def detect_direction (image_array : Option ImageArray)
    (x y : ℕ) : Option String :=
  match image_array with
  | none => none
  | some img => some (detect_direction_core img x y)

/-- The gray values of the clipped window are all equal (a
uniform-intensity window). -/
def window_uniform (img : ImageArray) (x y : ℕ) : Prop :=
  ∀ i, i < rowsCount img.h y → ∀ j, j < colsCount img.w x →
    grayVal (img.px (y - 1 + i) (x - 1 + j)) =
      grayVal (img.px (y - 1) (x - 1))

instance (img : ImageArray) (x y : ℕ) : Decidable (window_uniform img x y) := by
  unfold window_uniform
  infer_instance

theorem colsCount_le_of_border {w x : ℕ} (h : x = 0 ∨ w ≤ x + 1) :
    colsCount w x ≤ 2 := by
  unfold colsCount; omega

theorem rowsCount_le_of_border {h y : ℕ} (hb : y = 0 ∨ h ≤ y + 1) :
    rowsCount h y ≤ 2 := by
  unfold rowsCount; omega

theorem conv3_const_h (g : ℕ → ℕ → ℤ) (c : ℤ)
    (hg : ∀ i j, i < 3 → j < 3 → g i j = c) : conv3 g h_kernel = 0 := by
  simp only [conv3,
    hg 0 0 (by norm_num) (by norm_num), hg 0 1 (by norm_num) (by norm_num),
    hg 0 2 (by norm_num) (by norm_num), hg 1 0 (by norm_num) (by norm_num),
    hg 1 1 (by norm_num) (by norm_num), hg 1 2 (by norm_num) (by norm_num),
    hg 2 0 (by norm_num) (by norm_num), hg 2 1 (by norm_num) (by norm_num),
    hg 2 2 (by norm_num) (by norm_num)]
  simp [kcell, h_kernel]

theorem conv3_const_v (g : ℕ → ℕ → ℤ) (c : ℤ)
    (hg : ∀ i j, i < 3 → j < 3 → g i j = c) : conv3 g v_kernel = 0 := by
  simp only [conv3,
    hg 0 0 (by norm_num) (by norm_num), hg 0 1 (by norm_num) (by norm_num),
    hg 0 2 (by norm_num) (by norm_num), hg 1 0 (by norm_num) (by norm_num),
    hg 1 1 (by norm_num) (by norm_num), hg 1 2 (by norm_num) (by norm_num),
    hg 2 0 (by norm_num) (by norm_num), hg 2 1 (by norm_num) (by norm_num),
    hg 2 2 (by norm_num) (by norm_num)]
  simp [kcell, v_kernel]

/-- C5: `detect_direction` returns the no-edge value `'none'` whenever the
focal pixel sits on the array border (so the clipped window is smaller than
3×3) and on every uniform-intensity window (both Sobel kernels sum to zero,
so `gx = gy = 0 < 20`). -/
theorem C5_none_on_border_or_uniform (img : ImageArray) (x y : ℕ)
    (hyp : x = 0 ∨ y = 0 ∨ img.w ≤ x + 1 ∨ img.h ≤ y + 1 ∨
      window_uniform img x y) :
    detect_direction (some img) x y = some "none" := by
  show some (detect_direction_core img x y) = some "none"
  congr 1
  by_cases hsmall : rowsCount img.h y < 3 ∨ colsCount img.w x < 3
  · simp [detect_direction_core, hsmall]
  · have hr3 : 3 ≤ rowsCount img.h y := by omega
    have hc3 : 3 ≤ colsCount img.w x := by omega
    have huni : window_uniform img x y := by
      rcases hyp with h | h | h | h | h
      · exact absurd (@colsCount_le_of_border img.w x (Or.inl h)) (by omega)
      · exact absurd (@rowsCount_le_of_border img.h y (Or.inl h)) (by omega)
      · exact absurd (@colsCount_le_of_border img.w x (Or.inr h)) (by omega)
      · exact absurd (@rowsCount_le_of_border img.h y (Or.inr h)) (by omega)
      · exact h
    have hg : ∀ i j, i < 3 → j < 3 →
        ((grayVal (img.px (y - 1 + i) (x - 1 + j)) : ℤ)) =
          ((grayVal (img.px (y - 1) (x - 1)) : ℤ)) := by
      intro i j hi hj
      exact_mod_cast huni i (by omega) j (by omega)
    simp only [detect_direction_core]
    rw [if_neg hsmall, if_pos ⟨by rw [conv3_const_h _ _ hg]; norm_num,
      by rw [conv3_const_v _ _ hg]; norm_num⟩]

theorem C5_none_on_border_or_uniform_witness :
    window_uniform ⟨3, 3, fun _ _ => (5, 5, 5)⟩ 1 1 ∧
      detect_direction (some ⟨3, 3, fun _ _ => (5, 5, 5)⟩) 1 1 =
        some "none" :=
  ⟨by decide,
    C5_none_on_border_or_uniform ⟨3, 3, fun _ _ => (5, 5, 5)⟩ 1 1
      (Or.inr (Or.inr (Or.inr (Or.inr (by decide)))))⟩

theorem atan2_nonneg_le_pi_div_two {y x : ℝ} (hy : 0 ≤ y) (hx : 0 ≤ x) :
    0 ≤ atan2 y x ∧ atan2 y x ≤ Real.pi / 2 := by
  rcases lt_trichotomy x 0 with hneg | hzero | hpos
  · exact absurd hneg (not_lt.mpr hx)
  · subst hzero
    unfold atan2
    rw [if_neg (lt_irrefl 0), if_neg (lt_irrefl 0)]
    by_cases hy0 : 0 < y
    · rw [if_pos hy0]
      exact ⟨by positivity, le_refl _⟩
    · rw [if_neg hy0, if_neg (not_lt.mpr hy)]
      exact ⟨le_refl _, by positivity⟩
  · unfold atan2
    rw [if_pos hpos]
    constructor
    · calc (0 : ℝ) = Real.arctan 0 := Real.arctan_zero.symm
        _ ≤ Real.arctan (y / x) :=
          Real.arctan_strictMono.monotone (div_nonneg hy hpos.le)
    · exact (Real.arctan_lt_pi_div_two _).le

theorem classify_angle_of_first_quadrant {a : ℝ} (h0 : 0 ≤ a)
    (h90 : a ≤ 90) :
    classify_angle a = "ne" ∨ classify_angle a = "n" ∨
      classify_angle a = "e" := by
  unfold classify_angle
  split_ifs with h1 h2 h3 h4 h5 h6 h7
  · exact Or.inl rfl
  · exact Or.inr (Or.inl rfl)
  · exact absurd h3.1 (by push_neg; linarith)
  · rcases h4 with ⟨h, _⟩ | ⟨_, h⟩ <;> linarith
  · exact absurd h5.2 (by push_neg; linarith)
  · exact absurd h6.2 (by push_neg; linarith)
  · exact absurd h7.2 (by push_neg; linarith)
  · exact Or.inr (Or.inr rfl)

theorem classify_atan2_nat (gx gy : ℕ) :
    classify_angle (atan2 (gy : ℝ) (gx : ℝ) * 180 / Real.pi) = "ne" ∨
      classify_angle (atan2 (gy : ℝ) (gx : ℝ) * 180 / Real.pi) = "n" ∨
      classify_angle (atan2 (gy : ℝ) (gx : ℝ) * 180 / Real.pi) = "e" := by
  obtain ⟨ha0, ha1⟩ := atan2_nonneg_le_pi_div_two (Nat.cast_nonneg gy)
    (Nat.cast_nonneg gx)
  have hd0 : 0 ≤ atan2 (gy : ℝ) (gx : ℝ) * 180 / Real.pi := by
    have := Real.pi_pos
    positivity
  have hd90 : atan2 (gy : ℝ) (gx : ℝ) * 180 / Real.pi ≤ 90 := by
    rw [div_le_iff₀ Real.pi_pos]
    nlinarith [Real.pi_pos]
  exact classify_angle_of_first_quadrant hd0 hd90

/-- C6: for every image array and every coordinate `detect_direction`
returns a value in `{'none', 'e', 'ne', 'n'}` — since `gx` and `gy` are
absolute values, `atan2(gy, gx)` lies in `[0°, 90°]`, so the buckets `nw`,
`w`, `sw`, `s`, `se` are never returned. -/
theorem C6_only_first_quadrant_buckets (img : ImageArray) (x y : ℕ) :
    detect_direction (some img) x y = some "none" ∨
      detect_direction (some img) x y = some "e" ∨
      detect_direction (some img) x y = some "ne" ∨
      detect_direction (some img) x y = some "n" := by
  have core : detect_direction_core img x y = "none" ∨
      detect_direction_core img x y = "e" ∨
      detect_direction_core img x y = "ne" ∨
      detect_direction_core img x y = "n" := by
    simp only [detect_direction_core]
    split_ifs
    · exact Or.inl rfl
    · exact Or.inl rfl
    · rcases classify_atan2_nat _ _ with h | h | h
      · exact Or.inr (Or.inr (Or.inl h))
      · exact Or.inr (Or.inr (Or.inr h))
      · exact Or.inr (Or.inl h)
  show some (detect_direction_core img x y) = some "none" ∨
    some (detect_direction_core img x y) = some "e" ∨
    some (detect_direction_core img x y) = some "ne" ∨
    some (detect_direction_core img x y) = some "n"
  rcases core with h | h | h | h
  · exact Or.inl (congrArg some h)
  · exact Or.inr (Or.inl (congrArg some h))
  · exact Or.inr (Or.inr (Or.inl (congrArg some h)))
  · exact Or.inr (Or.inr (Or.inr (congrArg some h)))

end AsciiWallpaper
